import Mathlib

/-!
Verification development for the league asset-lineage application.

The repository has two layers:

* a Next.js frontend (embedded below in namespace `Frontend`): the
  client-side player search of `ApiClient.searchPlayers`
  (frontend/src/lib/api.ts) and the React-Flow transformation
  `transformAssetChainToFlow` (AssetChainVisualization), together with the
  type declarations of frontend/src/lib/types.ts;
* the backend Asset Lineage Resolution Engine (namespace `Engine`): its
  code is not part of the repository sources, only its type declarations
  and HTTP callers are, so the engine is modelled from the specification
  (cache, fetch orchestrator, timeline resolver, transaction index and the
  recursive lineage resolver).
-/

namespace Frontend

/-- Player record, from frontend/src/lib/types.ts (`interface Player`);
optional TS fields become `Option`. -/
structure Player where
  player_id : String
  full_name : Option String
  first_name : Option String
  last_name : Option String
  position : Option String
  team : Option String
  age : Option Nat
deriving DecidableEq, Repr

/-- `needle` occurs as a contiguous run somewhere in `hay`. -/
def containsSub (needle : List Char) : List Char → Bool
  | [] => needle.isEmpty
  | c :: rest => needle.isPrefixOf (c :: rest) || containsSub needle rest

/-- JavaScript `hay.includes(needle)` on strings: substring test. -/
def jsIncludes (hay needle : String) : Bool :=
  containsSub needle.toList hay.toList

/-- `field?.toLowerCase().includes(searchTerm)` coerced to boolean: a missing
field short-circuits to `undefined`, which is falsy. -/
def optIncludes (field : Option String) (searchTerm : String) : Bool :=
  match field with
  | some s => jsIncludes s.toLower searchTerm
  | none => false

/-- `ApiClient.searchPlayers` (frontend/src/lib/api.ts, lines 83-101): an
empty or shorter-than-2 query yields `[]`; otherwise filter the player pool
on a case-insensitive match of full, first or last name and keep the first
10 results.  The player pool stands for `Object.values(allPlayers)`. -/
def searchPlayers (allPlayers : List Player) (query : String) : List Player :=
  if query.length < 2 then []
  else
    let searchTerm := query.toLower
    (allPlayers.filter (fun p =>
      optIncludes p.full_name searchTerm ||
      optIncludes p.first_name searchTerm ||
      optIncludes p.last_name searchTerm)).take 10

/-- Opaque stand-in for a TS `Record<string, any>` value. -/
abbrev JsonRec := List (String × String)

/-- Final-outcome record as the visualization reads it: the four fields
accessed by `transformAssetChainToFlow`, each possibly missing. -/
structure OutcomeRec where
  asset_name : Option String
  asset_type : Option String
  current_owner : Option String
  acquisition_method : Option String
deriving Repr

/-- `interface AssetChainBranch` (frontend/src/lib/types.ts, lines 261-269);
recursive through `sub_branches`, so an inductive with manual projections. -/
inductive AssetChainBranch where
  | mk (initial_asset : JsonRec)
       (trade_package : List JsonRec)
       (assets_received_in_trade : List JsonRec)
       (trade_details : Option JsonRec)
       (sub_branches : List AssetChainBranch)
       (final_outcomes : List OutcomeRec)
       (branch_summary : JsonRec)

def AssetChainBranch.initial_asset : AssetChainBranch → JsonRec
  | .mk a _ _ _ _ _ _ => a

def AssetChainBranch.trade_package : AssetChainBranch → List JsonRec
  | .mk _ t _ _ _ _ _ => t

def AssetChainBranch.assets_received_in_trade : AssetChainBranch → List JsonRec
  | .mk _ _ r _ _ _ _ => r

def AssetChainBranch.trade_details : AssetChainBranch → Option JsonRec
  | .mk _ _ _ d _ _ _ => d

def AssetChainBranch.sub_branches : AssetChainBranch → List AssetChainBranch
  | .mk _ _ _ _ s _ _ => s

def AssetChainBranch.final_outcomes : AssetChainBranch → List OutcomeRec
  | .mk _ _ _ _ _ f _ => f

def AssetChainBranch.branch_summary : AssetChainBranch → JsonRec
  | .mk _ _ _ _ _ _ b => b

/-- `interface ComprehensiveAssetChain` (frontend/src/lib/types.ts,
lines 271-282). -/
structure ComprehensiveAssetChain where
  asset_id : String
  asset_name : String
  asset_type : String
  manager_roster_id : Nat
  manager_name : String
  original_acquisition : JsonRec
  trade_away_details : Option JsonRec
  assets_received : List JsonRec
  asset_branches : List AssetChainBranch
  chain_summary : JsonRec

/-- The `data` payload of a React Flow node, one variant per node type used
by `transformAssetChainToFlow`. -/
inductive NodeData where
  | player (label : String) (assetType : String) (acquisition : JsonRec)
      (managerName : String)
  | branch (label : String) (initialAsset : JsonRec)
      (outcomes : List OutcomeRec)
  | outcome (label : String) (assetType : Option String)
      (currentOwner : Option String) (acquisition : Option String)

/-- React Flow `Node` as built by the transform: id, type and position. -/
structure FlowNode where
  id : String
  type : String
  x : Int
  y : Int
  data : NodeData

/-- React Flow `Edge` as built by the transform. -/
structure FlowEdge where
  id : String
  source : String
  target : String
  animated : Bool

/-- JavaScript `v || dflt` on an optional string: missing and empty strings
are falsy. -/
def jsOr (v : Option String) (dflt : String) : String :=
  match v with
  | some s => if s.isEmpty then dflt else s
  | none => dflt

/-- Inner loop of `transformAssetChainToFlow`
(AssetChainVisualization.tsx, lines 207-231): one outcome node plus one
branch-to-outcome edge per final outcome of the branch. -/
def outcomeFlow (branchIndex : Nat) (branchNodeId : String) (yOffset : Int)
    (outcomeIndex : Nat) : List OutcomeRec → List FlowNode × List FlowEdge
  | [] => ([], [])
  | o :: rest =>
    let outcomeNodeId :=
      "outcome-" ++ toString branchIndex ++ "-" ++ toString outcomeIndex
    let node : FlowNode :=
      { id := outcomeNodeId, type := "outcomeNode"
        x := 50 + (branchIndex : Int) * 300 + (outcomeIndex : Int) * 150
        y := yOffset + 150
        data := .outcome
          (jsOr o.asset_name ("Asset " ++ toString (outcomeIndex + 1)))
          o.asset_type o.current_owner o.acquisition_method }
    let edge : FlowEdge :=
      { id := branchNodeId ++ "-to-" ++ outcomeNodeId, source := branchNodeId
        target := outcomeNodeId, animated := false }
    let tail := outcomeFlow branchIndex branchNodeId yOffset (outcomeIndex + 1) rest
    (node :: tail.1, edge :: tail.2)

/-- Outer loop of `transformAssetChainToFlow`
(AssetChainVisualization.tsx, lines 183-234): per top-level branch, one
branch node, one animated root edge, and the outcome nodes and edges;
`yOffset` grows by 300 per branch.  `sub_branches` is never consulted. -/
def branchFlow (yOffset : Int) (branchIndex : Nat) :
    List AssetChainBranch → List FlowNode × List FlowEdge
  | [] => ([], [])
  | b :: rest =>
    let branchNodeId := "branch-" ++ toString branchIndex
    let branchNode : FlowNode :=
      { id := branchNodeId, type := "branchNode"
        x := 100 + (branchIndex : Int) * 300, y := yOffset
        data := .branch ("Branch " ++ toString (branchIndex + 1))
          b.initial_asset b.final_outcomes }
    let rootEdge : FlowEdge :=
      { id := "root-to-" ++ branchNodeId, source := "root"
        target := branchNodeId, animated := true }
    let outs := outcomeFlow branchIndex branchNodeId yOffset 0 b.final_outcomes
    let tail := branchFlow (yOffset + 300) (branchIndex + 1) rest
    (branchNode :: (outs.1 ++ tail.1), rootEdge :: (outs.2 ++ tail.2))

/-- `transformAssetChainToFlow` (AssetChainVisualization.tsx,
lines 161-237): root player node at (250, 50), then the branch/outcome
nodes and edges. -/
def transformAssetChainToFlow (assetChain : ComprehensiveAssetChain) :
    List FlowNode × List FlowEdge :=
  let rootNode : FlowNode :=
    { id := "root", type := "playerNode", x := 250, y := 50
      data := .player assetChain.asset_name assetChain.asset_type
        assetChain.original_acquisition assetChain.manager_name }
  let rest := branchFlow 150 0 assetChain.asset_branches
  (rootNode :: rest.1, rest.2)

/-- Total number of final outcomes over a list of top-level branches. -/
def totalFinalOutcomes (bs : List AssetChainBranch) : Nat :=
  (bs.map (fun b => b.final_outcomes.length)).sum

end Frontend

namespace Engine

/-- Modelled from the spec: the fetch-result classification of §4.2
(payload, `NotFound`, `Failure(reason)`) — the backend engine's source is
not in the repository, only its type declarations and HTTP callers are. -/
inductive FetchResult (α : Type) where
  | payload (value : α)
  | notFound
  | failure (reason : String)
deriving DecidableEq, Repr

/-- Modelled from the spec: `TTL = 7 days, fixed` (§4.1), in milliseconds. -/
def TTL : Nat := 7 * 24 * 60 * 60 * 1000

/-- Modelled from the spec: a cache entry is a payload plus its fetch
timestamp (§4.1). -/
structure CacheEntry where
  payload : String
  fetchedAt : Nat
deriving DecidableEq, Repr

/-- Modelled from the spec: the Persistent Response Cache (§4.1), keyed by
the exact upstream request identity. -/
abbrev Cache := List (String × CacheEntry)

def cacheLookup (c : Cache) (key : String) : Option CacheEntry :=
  (c.find? (fun e => e.1 == key)).map (fun e => e.2)

/-- A cached entry is valid while `now − fetchedAt < TTL` (§4.1). -/
def entryValid (now : Nat) (e : CacheEntry) : Bool :=
  now - e.fetchedAt < TTL

/-- `get(key)` of §4.1: missing and expired entries are both absent. -/
def cacheGet (c : Cache) (now : Nat) (key : String) : Option String :=
  match cacheLookup c key with
  | some e => if entryValid now e then some e.payload else none
  | none => none

/-- `put(key, payload, fetchedAt)` of §4.1: idempotent overwrite. -/
def cachePut (c : Cache) (key payload : String) (now : Nat) : Cache :=
  (key, ⟨payload, now⟩) :: c.filter (fun e => e.1 != key)

/-- Modelled from the spec: one cache-consulting fetch (§4.2) against an
upstream that answers successfully; yields the payload, the cache state
after the call, and how many upstream requests were issued (0 on a cache
hit, 1 on a miss, which stores the payload with the current timestamp). -/
def fetchCached (c : Cache) (upstream : String → String) (now : Nat)
    (key : String) : String × Cache × Nat :=
  match cacheGet c now key with
  | some p => (p, c, 0)
  | none =>
    let p := upstream key
    (p, cachePut c key p now, 1)

/-- Season Record (§3), with the field names of
frontend/src/lib/types.ts (`interface League`): one league-season instance
with an optional link to the prior season. -/
structure SeasonRecord where
  league_id : String
  name : String
  season : String
  total_rosters : Nat
  status : String
  previous_league_id : Option String
deriving DecidableEq, Repr

/-- Modelled from the spec: the error taxonomy of §7 that the timeline
resolver can surface. -/
inductive EngineError where
  | notFound
  | upstreamFailure (reason : String)
  | recursionLimitExceeded
deriving DecidableEq, Repr

/-- Modelled from the spec: recursion depth cap of §4.3 (e.g. 50). -/
def recursionCap : Nat := 50

/-- Modelled from the spec: `resolveTimeline` (§4.3) with explicit depth
fuel.  Fetch the season; recursively resolve the prior-season link and
append the current record; a prior link resolving to `NotFound` makes the
current record the earliest season; running out of fuel is
`RecursionLimitExceeded`, not silent truncation. -/
def resolveTimelineAux (env : String → FetchResult SeasonRecord) :
    Nat → String → Except EngineError (List SeasonRecord)
  | 0, _ => .error .recursionLimitExceeded
  | fuel + 1, seasonId =>
    match env seasonId with
    | .failure reason => .error (.upstreamFailure reason)
    | .notFound => .error .notFound
    | .payload sr =>
      match sr.previous_league_id with
      | none => .ok [sr]
      | some priorId =>
        match resolveTimelineAux env fuel priorId with
        | .ok timeline => .ok (timeline ++ [sr])
        | .error .notFound => .ok [sr]
        | .error e => .error e

/-- Modelled from the spec: `resolveTimeline(seasonId)` (§4.3, §6). -/
def resolveTimeline (env : String → FetchResult SeasonRecord)
    (seasonId : String) : Except EngineError (List SeasonRecord) :=
  resolveTimelineAux env recursionCap seasonId

/-- Two consecutive records of a timeline are linked: the later record's
prior-season link resolves to the earlier record. -/
def linkedTo (env : String → FetchResult SeasonRecord)
    (a b : SeasonRecord) : Prop :=
  ∃ priorId, b.previous_league_id = some priorId
    ∧ env priorId = .payload a

/-- The earliest record of a timeline has no resolvable prior link: either
no link at all, or a link that fetches to `NotFound`. -/
def earliestSeason (env : String → FetchResult SeasonRecord)
    (sr : SeasonRecord) : Prop :=
  sr.previous_league_id = none
    ∨ ∃ priorId, sr.previous_league_id = some priorId
        ∧ env priorId = .notFound

/-- Scenario D environment: season S2 links to S1, S1 links to S0, and any
other id (S0 included) fetches to `NotFound`. -/
def envD : String → FetchResult SeasonRecord := fun sid =>
  if sid = "S2" then
    .payload ⟨"S2", "Dynasty League", "2024", 12, "complete", some "S1"⟩
  else if sid = "S1" then
    .payload ⟨"S1", "Dynasty League", "2023", 12, "complete", some "S0"⟩
  else .notFound

/-- The timeline Scenario D expects: earliest first, S1 then S2. -/
def timelineD : List SeasonRecord :=
  [⟨"S1", "Dynasty League", "2023", 12, "complete", some "S0"⟩,
   ⟨"S2", "Dynasty League", "2024", 12, "complete", some "S1"⟩]

/-- A season record whose prior-season link points back to itself. -/
def cyclicRecord : SeasonRecord :=
  ⟨"L1", "Cyclic League", "2024", 12, "in_season", some "L1"⟩

/-- An upstream in which every season id resolves to the cyclic record. -/
def cyclicEnv : String → FetchResult SeasonRecord := fun _ =>
  .payload cyclicRecord

/-- Transaction type tag (§3): `trade`, `waiver` or `free_agent`. -/
inductive TxType where
  | trade
  | waiver
  | free_agent
deriving DecidableEq, Repr

/-- Draft-pick movement bundled with a trade, from
frontend/src/lib/types.ts (`interface DraftPickMovement`). -/
structure DraftPickMovement where
  season : String
  round : Nat
  roster_id : Nat
  owner_id : Nat
  previous_owner_id : Nat
deriving DecidableEq, Repr

/-- Transaction (§3), with the field names of frontend/src/lib/types.ts
(`interface Transaction`): asset additions and removals are mappings from
asset id to roster id, the timestamp is authoritative for ordering. -/
structure Transaction where
  transaction_id : String
  league_id : String
  type : TxType
  week : Nat
  timestamp : Nat
  adds : List (String × Nat)
  drops : List (String × Nat)
  draft_picks : List DraftPickMovement
deriving DecidableEq, Repr

/-- Modelled from the spec: the per-week transaction fetch results of one
season of the timeline (§4.4). -/
structure SeasonWeeks where
  season : SeasonRecord
  weeks : List (FetchResult (List Transaction))

/-- A week fetch contributes its transactions; `NotFound` (and, for the
flattening itself, any non-payload) contributes zero transactions. -/
def weekTransactions : FetchResult (List Transaction) → List Transaction
  | .payload txs => txs
  | _ => []

/-- Modelled from the spec: flatten all returned transactions across all
weeks of all seasons of the timeline (§4.4). -/
def flattenTimeline (tl : List SeasonWeeks) : List Transaction :=
  (tl.map (fun s => (s.weeks.map weekTransactions).flatten)).flatten

/-- Timestamp order on transactions: the sort key of the index (§4.4). -/
def tsLE (a b : Transaction) : Prop :=
  a.timestamp ≤ b.timestamp

instance : DecidableRel tsLE := fun a b =>
  inferInstanceAs (Decidable (a.timestamp ≤ b.timestamp))

instance : IsTotal Transaction tsLE :=
  ⟨fun a b => Nat.le_total a.timestamp b.timestamp⟩

instance : IsTrans Transaction tsLE :=
  ⟨fun _ _ _ => Nat.le_trans⟩

/-- Modelled from the spec: `buildIndex(timeline)` (§4.4) — flatten all
seasons' transactions and sort by timestamp ascending. -/
def buildIndex (tl : List SeasonWeeks) : List Transaction :=
  List.insertionSort tsLE (flattenTimeline tl)

/-- A sample trade: roster 1 sends p1 to roster 2. -/
def txA : Transaction :=
  ⟨"tx-a", "LG", .trade, 3, 100, [("p1", 2)], [("p1", 1)], []⟩

/-- A sample waiver claim landing p2 on roster 1. -/
def txB : Transaction :=
  ⟨"tx-b", "LG", .waiver, 1, 50, [("p2", 1)], [], []⟩

/-- One-season timeline whose weeks delivered txA, nothing, then txB. -/
def timelineW : List SeasonWeeks :=
  [⟨⟨"S1", "League", "2024", 12, "complete", none⟩,
    [.payload [txA], .notFound, .payload [txB]]⟩]

/-- The same transactions delivered in one week, in the other order. -/
def timelineW2 : List SeasonWeeks :=
  [⟨⟨"S1", "League", "2024", 12, "complete", none⟩,
    [.payload [txB, txA]]⟩]

/-- Acquisition Event (§3): how a roster came to hold an asset. -/
inductive Acquisition where
  | drafted
  | waiverClaim
  | freeAgentAdd
  | trade (transactionId : String)
deriving DecidableEq, Repr

/-- Final Outcome (§3): the terminal holder and acquisition of a leaf
asset. -/
structure FinalOutcome where
  asset : String
  holder : Nat
  acquisition : Acquisition
deriving DecidableEq, Repr

/-- Asset Chain Branch (§3): the initiating asset, the holder that traded
it away (`currentHolder` of §4.5 step 2), the received package, the
originating Transaction, child branches, and final outcomes for received
assets never re-traded.  Recursive through the child branches. -/
inductive AssetChainBranch where
  | mk (initiatingAsset : String) (holder : Nat)
       (receivedPackage : List String)
       (originatingTx : Transaction)
       (subBranches : List AssetChainBranch)
       (finalOutcomes : List FinalOutcome)

def AssetChainBranch.initiatingAsset : AssetChainBranch → String
  | .mk a _ _ _ _ _ => a

def AssetChainBranch.holder : AssetChainBranch → Nat
  | .mk _ h _ _ _ _ => h

def AssetChainBranch.receivedPackage : AssetChainBranch → List String
  | .mk _ _ p _ _ _ => p

def AssetChainBranch.originatingTx : AssetChainBranch → Transaction
  | .mk _ _ _ t _ _ => t

def AssetChainBranch.subBranches : AssetChainBranch → List AssetChainBranch
  | .mk _ _ _ _ s _ => s

def AssetChainBranch.finalOutcomes : AssetChainBranch → List FinalOutcome
  | .mk _ _ _ _ _ f => f

/-- The result of one `buildBranch` call (§4.5 step 2d): a child branch if
the asset was re-traded, a final outcome otherwise. -/
inductive BranchResult where
  | leaf (outcome : FinalOutcome)
  | branch (b : AssetChainBranch)

/-- Comprehensive Asset Chain (§3): the aggregate root returned to
callers. -/
structure ComprehensiveAssetChain where
  assetId : String
  rosterId : Nat
  originalAcquisition : Acquisition
  assetBranches : List AssetChainBranch

/-- §4.5 step 2a: `tx` is a trade in which `holder` gives up `asset`. -/
def isTradeAway (asset : String) (holder : Nat) (tx : Transaction) : Bool :=
  tx.type == TxType.trade && decide ((asset, holder) ∈ tx.drops)

/-- The strictly-after acquisition-time bound; `none` stands for the
zero-th (draft) transaction, ordered before all others (§4.5 step 1). -/
def afterBound : Option Nat → Transaction → Bool
  | none, _ => true
  | some t, tx => decide (t < tx.timestamp)

/-- Earliest-transaction comparison with the §4.5 tie-break: earlier
timestamp, then lexicographically smaller transaction id. -/
def earlierTx (a b : Transaction) : Bool :=
  decide (a.timestamp < b.timestamp)
    || (a.timestamp == b.timestamp
        && decide (a.transaction_id < b.transaction_id))

/-- The earliest transaction of a candidate list under `earlierTx`. -/
def earliestTx : List Transaction → Option Transaction
  | [] => none
  | tx :: rest =>
    match earliestTx rest with
    | none => some tx
    | some m => if earlierTx m tx then some m else some tx

/-- §4.5 step 2a: the earliest trade after `after` in which `holder` gives
up `asset`. -/
def findTradeAway (idx : List Transaction) (asset : String) (holder : Nat)
    (after : Option Nat) : Option Transaction :=
  earliestTx (idx.filter (fun tx =>
    isTradeAway asset holder tx && afterBound after tx))

/-- §4.5 step 2b: everything `holder` got back in `tx` — the assets the
transaction adds to `holder`. -/
def receivedPackage (tx : Transaction) (holder : Nat) : List String :=
  (tx.adds.filter (fun e => e.2 == holder)).map (fun e => e.1)

/-- Modelled from the spec: §4.5 step 2c — pick→player substitution at
recursion time; `none` while the pick has not yet been used in a draft. -/
def resolvePick (pickToPlayer : String → Option String)
    (asset : String) : String :=
  (pickToPlayer asset).getD asset

/-- §4.5 step 1: the earliest transaction crediting `assetId` to
`rosterId`. -/
def firstAcquisitionTx (idx : List Transaction) (rosterId : Nat)
    (assetId : String) : Option Transaction :=
  earliestTx (idx.filter (fun tx => decide ((assetId, rosterId) ∈ tx.adds)))

/-- §4.5 step 1: classify the original acquisition; with no crediting
transaction the asset is presumed drafted. -/
def classifyAcquisition : Option Transaction → Acquisition
  | none => .drafted
  | some tx =>
    match tx.type with
    | .trade => .trade tx.transaction_id
    | .waiver => .waiverClaim
    | .free_agent => .freeAgentAdd

/-- The acquisition time used as the strictly-after bound of step 2a. -/
def acquisitionBound : Option Transaction → Option Nat
  | none => none
  | some tx => some tx.timestamp

def sequenceOptions {α : Type} : List (Option α) → Option (List α)
  | [] => some []
  | none :: _ => none
  | some a :: rest => (sequenceOptions rest).map (fun l => a :: l)

/-- Partition the child results into sub-branches and final outcomes
(§4.5 steps 2d-2e). -/
def splitResults (rs : List BranchResult) :
    List AssetChainBranch × List FinalOutcome :=
  (rs.filterMap (fun r => match r with
    | .branch b => some b
    | .leaf _ => none),
   rs.filterMap (fun r => match r with
    | .leaf o => some o
    | .branch _ => none))

/-- Modelled from the spec: `buildBranch(asset, currentHolder)` (§4.5
step 2), with explicit recursion fuel.  Find the earliest trade giving up
`asset` after the bound; none makes a leaf Final Outcome; otherwise build
the received package and recurse on every received asset (after
pick→player substitution), each child result becoming a sub-branch or a
final outcome of this branch. -/
def buildBranch (idx : List Transaction)
    (pickToPlayer : String → Option String) :
    Nat → String → Nat → Option Nat → Acquisition → Option BranchResult
  | 0, _, _, _, _ => none
  | fuel + 1, asset, holder, after, acq =>
    match findTradeAway idx asset holder after with
    | none => some (.leaf ⟨asset, holder, acq⟩)
    | some tx =>
      let package := receivedPackage tx holder
      match sequenceOptions (package.map (fun a =>
          buildBranch idx pickToPlayer fuel (resolvePick pickToPlayer a)
            holder (some tx.timestamp) (.trade tx.transaction_id))) with
      | none => none
      | some results =>
        some (.branch (.mk asset holder package tx
          (splitResults results).1 (splitResults results).2))

/-- Modelled from the spec: `resolveChain` (§4.5).  Resolve the original
acquisition (step 1), build the branch tree with fuel one more than the
index size (always sufficient, see the termination theorem), and wrap the
top-level branches (step 3). -/
def resolveChain (idx : List Transaction)
    (pickToPlayer : String → Option String) (rosterId : Nat)
    (assetId : String) : Option ComprehensiveAssetChain :=
  let acqTx := firstAcquisitionTx idx rosterId assetId
  let acq := classifyAcquisition acqTx
  match buildBranch idx pickToPlayer (idx.length + 1) assetId rosterId
      (acquisitionBound acqTx) acq with
  | none => none
  | some (.leaf _) => some ⟨assetId, rosterId, acq, []⟩
  | some (.branch b) => some ⟨assetId, rosterId, acq, [b]⟩

/-- How many index transactions lie strictly after the bound: the measure
that shrinks at every recursion step of `buildBranch`. -/
def countAfter (idx : List Transaction) (after : Option Nat) : Nat :=
  idx.countP (fun tx => afterBound after tx)

/-- Every branch node of a branch tree, the root included. -/
def collectBranches : AssetChainBranch → List AssetChainBranch
  | .mk a h p t subs outs =>
    .mk a h p t subs outs ::
      (subs.attach.map (fun s => collectBranches s.1)).flatten
termination_by b => sizeOf b
decreasing_by
  simp only [AssetChainBranch.mk.sizeOf_spec]
  have := List.sizeOf_lt_of_mem s.2
  omega

/-- Every branch node reachable from one `buildBranch` result. -/
def collectResult : BranchResult → List AssetChainBranch
  | .leaf _ => []
  | .branch b => collectBranches b

/-- Every branch node of a Comprehensive Asset Chain. -/
def collectChain (chain : ComprehensiveAssetChain) : List AssetChainBranch :=
  (chain.assetBranches.map collectBranches).flatten

/-- `tx` touches `assetId`: the asset appears among the transaction's
additions or removals, for any roster. -/
def touches (assetId : String) (tx : Transaction) : Prop :=
  (∃ p ∈ tx.adds, p.1 = assetId) ∨ (∃ p ∈ tx.drops, p.1 = assetId)

instance (assetId : String) (tx : Transaction) :
    Decidable (touches assetId tx) := by
  unfold touches
  infer_instance

/-- Witness index: one non-trade (waiver) transaction only. -/
def idxW : List Transaction := [txB]

/-- Scenario B trade: roster 1 sends P to roster 2 and receives Q. -/
def txTrade : Transaction :=
  ⟨"tx-1", "LG", .trade, 5, 100, [("Q", 1), ("P", 2)], [("P", 1), ("Q", 2)], []⟩

/-- Scenario B index: just the P-for-Q trade. -/
def idxB : List Transaction := [txTrade]

/-- The leaf outcome of Scenario B: Q stays with roster 1. -/
def outcomeQ : FinalOutcome := ⟨"Q", 1, .trade "tx-1"⟩

/-- The single branch of Scenario B. -/
def branchP : AssetChainBranch := .mk "P" 1 ["Q"] txTrade [] [outcomeQ]

/-- The Comprehensive Asset Chain of Scenario B for (roster 1, P). -/
def chainB : ComprehensiveAssetChain := ⟨"P", 1, .drafted, [branchP]⟩

end Engine

namespace Frontend

theorem outcomeFlow_lengths (bi : Nat) (bid : String) (y : Int) (oi : Nat)
    (outs : List OutcomeRec) :
    (outcomeFlow bi bid y oi outs).1.length = outs.length
    ∧ (outcomeFlow bi bid y oi outs).2.length = outs.length := by
  induction outs generalizing oi with
  | nil => simp [outcomeFlow]
  | cons o rest ih =>
    simpa [outcomeFlow] using ih (oi + 1)

theorem branchFlow_lengths (y : Int) (bi : Nat) (bs : List AssetChainBranch) :
    (branchFlow y bi bs).1.length = bs.length + totalFinalOutcomes bs
    ∧ (branchFlow y bi bs).2.length = bs.length + totalFinalOutcomes bs := by
  induction bs generalizing y bi with
  | nil => simp [branchFlow, totalFinalOutcomes]
  | cons b rest ih =>
    have ho := outcomeFlow_lengths bi ("branch-" ++ toString bi) y 0 b.final_outcomes
    have ht := ih (y + 300) (bi + 1)
    simp only [branchFlow, List.length_cons, List.length_append, ho.1, ho.2,
      ht.1, ht.2, totalFinalOutcomes, List.map_cons, List.sum_cons]
    constructor <;> omega

end Frontend

namespace Engine

theorem cacheLookup_put (c : Cache) (key payload : String) (now : Nat) :
    cacheLookup (cachePut c key payload now) key = some ⟨payload, now⟩ := by
  simp [cacheLookup, cachePut]

theorem fetchCached_requests_le_one (c : Cache) (upstream : String → String)
    (now : Nat) (key : String) : (fetchCached c upstream now key).2.2 ≤ 1 := by
  unfold fetchCached
  cases cacheGet c now key <;> simp

/-- C6: within one TTL window two fetches of the same key issue at most one
upstream request, and a fetch finding only an expired entry always re-hits
upstream. -/
theorem cache_ttl_property (c : Engine.Cache) (upstream : String → String)
    (key : String) (t1 t2 : Nat) (h12 : t1 ≤ t2) (hwin : t2 - t1 < Engine.TTL) :
    ((fetchCached c upstream t1 key).2.2
      + (fetchCached (fetchCached c upstream t1 key).2.1 upstream t2 key).2.2 ≤ 1)
    ∧ ∀ e : Engine.CacheEntry, cacheLookup c key = some e →
        Engine.TTL ≤ t2 - e.fetchedAt →
        (fetchCached c upstream t2 key).2.2 = 1 := by
  constructor
  · cases hget : cacheGet c t1 key with
    | some p =>
      have h2 := fetchCached_requests_le_one c upstream t2 key
      simp only [fetchCached, hget]
      simpa [fetchCached] using h2
    | none =>
      have hfresh : cacheGet (cachePut c key (upstream key) t1) t2 key
          = some (upstream key) := by
        have hvalid : entryValid t2 (⟨upstream key, t1⟩ : Engine.CacheEntry) = true := by
          simpa [entryValid] using hwin
        simp [cacheGet, cacheLookup_put, hvalid]
      simp [fetchCached, hget, hfresh]
  · intro e hlook hexp
    have hvalid : entryValid t2 e = false := by
      simp [entryValid]
      omega
    simp [fetchCached, cacheGet, hlook, hvalid]

theorem resolveTimelineAux_notFound (env : String → FetchResult SeasonRecord)
    (fuel : Nat) (sid : String)
    (h : resolveTimelineAux env fuel sid = .error .notFound) :
    env sid = .notFound := by
  cases fuel with
  | zero => simp [resolveTimelineAux] at h
  | succ fuel =>
    cases henv : env sid with
    | failure r => simp [resolveTimelineAux, henv] at h
    | notFound => rfl
    | payload sr =>
      exfalso
      cases hprev : sr.previous_league_id with
      | none => simp [resolveTimelineAux, henv, hprev] at h
      | some pid =>
        cases hrec : resolveTimelineAux env fuel pid with
        | ok tl => simp [resolveTimelineAux, henv, hprev, hrec] at h
        | error e =>
          cases e <;> simp [resolveTimelineAux, henv, hprev, hrec] at h

theorem resolveTimelineAux_structure (env : String → FetchResult SeasonRecord) :
    ∀ (fuel : Nat) (sid : String) (tl : List SeasonRecord),
      resolveTimelineAux env fuel sid = .ok tl →
      (∃ sr, env sid = .payload sr ∧ tl.getLast? = some sr)
      ∧ List.Chain' (linkedTo env) tl
      ∧ ∀ hd, tl.head? = some hd → earliestSeason env hd := by
  intro fuel
  induction fuel with
  | zero => intro sid tl h; simp [resolveTimelineAux] at h
  | succ fuel ih =>
    intro sid tl h
    cases henv : env sid with
    | failure r => simp [resolveTimelineAux, henv] at h
    | notFound => simp [resolveTimelineAux, henv] at h
    | payload sr =>
      cases hprev : sr.previous_league_id with
      | none =>
        simp only [resolveTimelineAux, henv, hprev] at h
        obtain rfl : [sr] = tl := by simpa using h
        refine ⟨⟨sr, rfl, by simp⟩, by simp, ?_⟩
        intro hd hhd
        simp at hhd
        subst hhd
        exact Or.inl hprev
      | some pid =>
        cases hrec : resolveTimelineAux env fuel pid with
        | ok tl2 =>
          simp only [resolveTimelineAux, henv, hprev, hrec] at h
          obtain rfl : tl2 ++ [sr] = tl := by simpa using h
          obtain ⟨⟨sr2, henv2, hlast⟩, hchain, hhead⟩ := ih pid tl2 hrec
          have hne : tl2 ≠ [] := by
            intro hnil
            rw [hnil] at hlast
            simp at hlast
          refine ⟨⟨sr, rfl, by simp⟩, ?_, ?_⟩
          · rw [List.chain'_append]
            refine ⟨hchain, List.chain'_singleton _, ?_⟩
            intro x hx y hy
            simp at hy
            subst hy
            rw [hlast] at hx
            simp at hx
            subst hx
            exact ⟨pid, hprev, henv2⟩
          · intro hd hhd
            cases tl2 with
            | nil => exact absurd rfl hne
            | cons a t =>
              simp at hhd
              subst hhd
              exact hhead a rfl
        | error e =>
          cases e with
          | notFound =>
            simp only [resolveTimelineAux, henv, hprev, hrec] at h
            obtain rfl : [sr] = tl := by simpa using h
            have hnf : env pid = .notFound :=
              resolveTimelineAux_notFound env fuel pid hrec
            refine ⟨⟨sr, rfl, by simp⟩, by simp, ?_⟩
            intro hd hhd
            simp at hhd
            subst hhd
            exact Or.inr ⟨pid, hprev, hnf⟩
          | upstreamFailure r =>
            simp [resolveTimelineAux, henv, hprev, hrec] at h
          | recursionLimitExceeded =>
            simp [resolveTimelineAux, henv, hprev, hrec] at h

theorem resolveTimelineAux_cycle (env : String → FetchResult SeasonRecord)
    (ids : Nat → String) (records : Nat → SeasonRecord)
    (hchain : ∀ n < recursionCap, env (ids n) = .payload (records n)
      ∧ (records n).previous_league_id = some (ids (n + 1))) :
    ∀ (fuel n : Nat), fuel + n ≤ recursionCap →
      resolveTimelineAux env fuel (ids n) = .error .recursionLimitExceeded := by
  intro fuel
  induction fuel with
  | zero => intro n hn; simp [resolveTimelineAux]
  | succ fuel ih =>
    intro n hn
    obtain ⟨henv, hprev⟩ := hchain n (by omega)
    have hrec := ih (n + 1) (by omega)
    simp only [resolveTimelineAux, henv, hprev, hrec]

theorem earliestTx_mem : ∀ (l : List Transaction) (m : Transaction),
    earliestTx l = some m → m ∈ l := by
  intro l
  induction l with
  | nil => intro m h; simp [earliestTx] at h
  | cons tx rest ih =>
    intro m h
    simp only [earliestTx] at h
    cases hrec : earliestTx rest with
    | none =>
      rw [hrec] at h
      simp at h
      simp [h]
    | some k =>
      rw [hrec] at h
      by_cases hcmp : earlierTx k tx = true
      · simp [hcmp] at h
        subst h
        exact List.mem_cons_of_mem _ (ih k hrec)
      · simp [hcmp] at h
        simp [h]

theorem findTradeAway_facts (idx : List Transaction) (asset : String)
    (holder : Nat) (after : Option Nat) (tx : Transaction)
    (h : findTradeAway idx asset holder after = some tx) :
    tx ∈ idx ∧ isTradeAway asset holder tx = true
      ∧ afterBound after tx = true := by
  have hmem := earliestTx_mem _ tx h
  have hfilter := List.mem_filter.mp hmem
  have h2 := hfilter.2
  simp only [Bool.and_eq_true] at h2
  exact ⟨hfilter.1, h2.1, h2.2⟩

theorem afterBound_mono (after : Option Nat) (tx y : Transaction)
    (hb : afterBound after tx = true)
    (hy : afterBound (some tx.timestamp) y = true) :
    afterBound after y = true := by
  cases after with
  | none => rfl
  | some t =>
    simp only [afterBound, decide_eq_true_eq] at hb hy ⊢
    omega

theorem countP_lt_of_mem {α : Type} (p q : α → Bool) :
    ∀ (l : List α) (a : α), a ∈ l → p a = false → q a = true →
      (∀ y ∈ l, p y = true → q y = true) → l.countP p < l.countP q := by
  intro l
  induction l with
  | nil => intro a h; simp at h
  | cons x rest ih =>
    intro a hmem hp hq hmono
    rw [List.countP_cons, List.countP_cons]
    rcases List.mem_cons.mp hmem with rfl | hmem2
    · have hle : rest.countP p ≤ rest.countP q :=
        List.countP_mono_left (fun y hy => hmono y (List.mem_cons_of_mem _ hy))
      simp only [hp, hq]
      simp
      omega
    · have hlt := ih a hmem2 hp hq
        (fun y hy => hmono y (List.mem_cons_of_mem _ hy))
      by_cases hx : p x = true
      · have hqx : q x = true := hmono x (List.mem_cons_self _ _) hx
        simp only [hx, hqx]
        omega
      · rw [Bool.not_eq_true] at hx
        simp only [hx]
        cases hqx : q x <;> simp <;> omega

theorem countAfter_lt (idx : List Transaction) (after : Option Nat)
    (tx : Transaction) (hmem : tx ∈ idx)
    (hb : afterBound after tx = true) :
    countAfter idx (some tx.timestamp) < countAfter idx after := by
  unfold countAfter
  refine countP_lt_of_mem _ _ idx tx hmem ?_ hb
    (fun y _ hy => afterBound_mono after tx y hb hy)
  simp [afterBound]

theorem countAfter_le_length (idx : List Transaction) (after : Option Nat) :
    countAfter idx after ≤ idx.length :=
  List.countP_le_length _

theorem sequenceOptions_isSome {α : Type} :
    ∀ (l : List (Option α)), (∀ x ∈ l, x.isSome = true) →
      (sequenceOptions l).isSome = true := by
  intro l
  induction l with
  | nil => intro _; simp [sequenceOptions]
  | cons x rest ih =>
    intro hall
    cases x with
    | none =>
      have := hall none (List.mem_cons_self _ _)
      simp at this
    | some a =>
      have hrest := ih (fun y hy => hall y (List.mem_cons_of_mem _ hy))
      obtain ⟨res, hres⟩ := Option.isSome_iff_exists.mp hrest
      simp [sequenceOptions, hres]

theorem sequenceOptions_length {α : Type} :
    ∀ (l : List (Option α)) (res : List α),
      sequenceOptions l = some res → res.length = l.length := by
  intro l
  induction l with
  | nil => intro res h; simp [sequenceOptions] at h; simp [← h]
  | cons x rest ih =>
    intro res h
    cases x with
    | none => simp [sequenceOptions] at h
    | some a =>
      simp only [sequenceOptions] at h
      cases hrec : sequenceOptions rest with
      | none => rw [hrec] at h; simp at h
      | some res2 =>
        rw [hrec] at h
        simp at h
        subst h
        simp [ih res2 hrec]

theorem sequenceOptions_mem {α : Type} :
    ∀ (l : List (Option α)) (res : List α),
      sequenceOptions l = some res → ∀ x ∈ res, some x ∈ l := by
  intro l
  induction l with
  | nil =>
    intro res h
    simp [sequenceOptions] at h
    subst h
    intro x hx
    simp at hx
  | cons y rest ih =>
    intro res h
    cases y with
    | none => simp [sequenceOptions] at h
    | some a =>
      simp only [sequenceOptions] at h
      cases hrec : sequenceOptions rest with
      | none => rw [hrec] at h; simp at h
      | some res2 =>
        rw [hrec] at h
        simp at h
        subst h
        intro x hx
        rcases List.mem_cons.mp hx with rfl | hx2
        · exact List.mem_cons_self _ _
        · exact List.mem_cons_of_mem _ (ih res2 hrec x hx2)

theorem buildBranch_isSome (idx : List Transaction)
    (p2p : String → Option String) :
    ∀ (fuel : Nat) (asset : String) (holder : Nat) (after : Option Nat)
      (acq : Acquisition), countAfter idx after < fuel →
      (buildBranch idx p2p fuel asset holder after acq).isSome = true := by
  intro fuel
  induction fuel with
  | zero => intro asset holder after acq h; omega
  | succ fuel ih =>
    intro asset holder after acq hcount
    cases hfind : findTradeAway idx asset holder after with
    | none => simp [buildBranch, hfind]
    | some tx =>
      obtain ⟨hmem, htrade, hafter⟩ :=
        findTradeAway_facts idx asset holder after tx hfind
      have hlt := countAfter_lt idx after tx hmem hafter
      have hchildren : ∀ x ∈ (receivedPackage tx holder).map (fun a =>
          buildBranch idx p2p fuel (resolvePick p2p a) holder
            (some tx.timestamp) (.trade tx.transaction_id)),
          x.isSome = true := by
        intro x hx
        obtain ⟨a, _, rfl⟩ := List.mem_map.mp hx
        exact ih (resolvePick p2p a) holder (some tx.timestamp) _ (by omega)
      have hseq := sequenceOptions_isSome _ hchildren
      obtain ⟨results, hres⟩ := Option.isSome_iff_exists.mp hseq
      simp [buildBranch, hfind, hres]

theorem splitResults_length (rs : List BranchResult) :
    (splitResults rs).1.length + (splitResults rs).2.length = rs.length := by
  induction rs with
  | nil => simp [splitResults]
  | cons r rest ih =>
    simp only [splitResults, List.filterMap_cons] at ih ⊢
    cases r <;> simp <;> omega

theorem mem_splitResults_branch (rs : List BranchResult)
    (s : AssetChainBranch) (h : s ∈ (splitResults rs).1) :
    BranchResult.branch s ∈ rs := by
  simp only [splitResults, List.mem_filterMap] at h
  obtain ⟨r, hr, hm⟩ := h
  cases r with
  | leaf o => simp at hm
  | branch b =>
    simp at hm
    subst hm
    exact hr

theorem mem_collectBranches (a : String) (h : Nat) (p : List String)
    (t : Transaction) (subs : List AssetChainBranch)
    (outs : List FinalOutcome) (b : AssetChainBranch) :
    b ∈ collectBranches (.mk a h p t subs outs) ↔
      b = .mk a h p t subs outs ∨ ∃ s ∈ subs, b ∈ collectBranches s := by
  rw [collectBranches]
  simp [List.mem_flatten, List.mem_map, List.mem_attach]

theorem buildBranch_invariant (idx : List Transaction)
    (p2p : String → Option String) :
    ∀ (fuel : Nat) (asset : String) (holder : Nat) (after : Option Nat)
      (acq : Acquisition) (r : BranchResult),
      buildBranch idx p2p fuel asset holder after acq = some r →
      ∀ b ∈ collectResult r,
        b.receivedPackage = receivedPackage b.originatingTx b.holder
        ∧ b.subBranches.length + b.finalOutcomes.length
            = b.receivedPackage.length := by
  intro fuel
  induction fuel with
  | zero => intro _ _ _ _ r h; simp [buildBranch] at h
  | succ fuel ih =>
    intro asset holder after acq r h
    cases hfind : findTradeAway idx asset holder after with
    | none =>
      simp only [buildBranch, hfind] at h
      obtain rfl : BranchResult.leaf ⟨asset, holder, acq⟩ = r := by
        simpa using h
      intro b hb
      simp [collectResult] at hb
    | some tx =>
      cases hseq : sequenceOptions ((receivedPackage tx holder).map (fun a =>
          buildBranch idx p2p fuel (resolvePick p2p a) holder
            (some tx.timestamp) (.trade tx.transaction_id))) with
      | none => simp [buildBranch, hfind, hseq] at h
      | some results =>
        simp only [buildBranch, hfind, hseq] at h
        obtain rfl : BranchResult.branch (.mk asset holder
            (receivedPackage tx holder) tx (splitResults results).1
            (splitResults results).2) = r := by simpa using h
        intro b hb
        simp only [collectResult] at hb
        rw [mem_collectBranches] at hb
        rcases hb with rfl | ⟨s, hs, hbs⟩
        · refine ⟨rfl, ?_⟩
          have h1 := splitResults_length results
          have h2 := sequenceOptions_length _ results hseq
          simp only [List.length_map] at h2
          simp only [AssetChainBranch.subBranches,
            AssetChainBranch.finalOutcomes, AssetChainBranch.receivedPackage]
          omega
        · have hbm : BranchResult.branch s ∈ results :=
            mem_splitResults_branch results s hs
          have hsome := sequenceOptions_mem _ results hseq _ hbm
          obtain ⟨a2, _, heq⟩ := List.mem_map.mp hsome
          exact ih (resolvePick p2p a2) holder (some tx.timestamp)
            (.trade tx.transaction_id) (.branch s) heq b
            (by simpa [collectResult] using hbs)

theorem resolveChain_collect_invariant (idx : List Transaction)
    (p2p : String → Option String) (rosterId : Nat) (assetId : String)
    (chain : ComprehensiveAssetChain)
    (h : resolveChain idx p2p rosterId assetId = some chain) :
    ∀ b ∈ collectChain chain,
      b.receivedPackage = receivedPackage b.originatingTx b.holder
      ∧ b.subBranches.length + b.finalOutcomes.length
          = b.receivedPackage.length := by
  intro b hb
  simp only [resolveChain] at h
  cases hbb : buildBranch idx p2p (idx.length + 1) assetId rosterId
      (acquisitionBound (firstAcquisitionTx idx rosterId assetId))
      (classifyAcquisition (firstAcquisitionTx idx rosterId assetId)) with
  | none => rw [hbb] at h; simp at h
  | some r =>
    rw [hbb] at h
    cases r with
    | leaf o =>
      simp at h
      subst h
      simp [collectChain] at hb
    | branch b0 =>
      simp at h
      subst h
      simp only [collectChain, List.map_cons, List.map_nil] at hb
      simp at hb
      exact buildBranch_invariant idx p2p _ _ _ _ _ _ hbb b
        (by simpa [collectResult] using hb)

end Engine

/-- C10: `ApiClient.searchPlayers` returns at most 10 players; a query of
fewer than 2 characters yields the empty list; and every returned player
matches the query case-insensitively on its full, first or last name. -/
theorem searchPlayers_spec (allPlayers : List Frontend.Player) (query : String) :
    (Frontend.searchPlayers allPlayers query).length ≤ 10
    ∧ (query.length < 2 → Frontend.searchPlayers allPlayers query = [])
    ∧ ∀ p ∈ Frontend.searchPlayers allPlayers query,
        (Frontend.optIncludes p.full_name query.toLower
          || Frontend.optIncludes p.first_name query.toLower
          || Frontend.optIncludes p.last_name query.toLower) = true := by
  refine ⟨?_, ?_, ?_⟩
  · unfold Frontend.searchPlayers
    split
    · simp
    · exact List.length_take_le 10 _
  · intro h
    unfold Frontend.searchPlayers
    simp [h]
  · intro p hp
    unfold Frontend.searchPlayers at hp
    split at hp
    · simp at hp
    · have hmem := List.mem_of_mem_take hp
      simpa using (List.mem_filter.mp hmem).2

/-- Concrete instance of C10: a 1-character query returns nothing, and a
real query returns at most 10 players. -/
theorem searchPlayers_spec_witness :
    Frontend.searchPlayers
        [⟨"4046", some "Patrick Mahomes", some "Patrick", some "Mahomes",
          some "QB", some "KC", some 28⟩] "m" = []
    ∧ (Frontend.searchPlayers
        [⟨"4046", some "Patrick Mahomes", some "Patrick", some "Mahomes",
          some "QB", some "KC", some 28⟩] "maho").length ≤ 10 :=
  ⟨(searchPlayers_spec _ "m").2.1 (by decide),
   (searchPlayers_spec _ "maho").1⟩

/-- C9: `transformAssetChainToFlow` produces exactly `1 + B + F` nodes and
`B + F` edges, where `B` counts the top-level `asset_branches` and `F` their
`final_outcomes`; nested `sub_branches` contribute nothing. -/
theorem transformAssetChainToFlow_counts (c : Frontend.ComprehensiveAssetChain) :
    (Frontend.transformAssetChainToFlow c).1.length
      = 1 + c.asset_branches.length + Frontend.totalFinalOutcomes c.asset_branches
    ∧ (Frontend.transformAssetChainToFlow c).2.length
      = c.asset_branches.length + Frontend.totalFinalOutcomes c.asset_branches := by
  have h := Frontend.branchFlow_lengths 150 0 c.asset_branches
  constructor
  · simp only [Frontend.transformAssetChainToFlow, List.length_cons, h.1]
    omega
  · simpa [Frontend.transformAssetChainToFlow] using h.2

/-- Concrete instance of C6: a miss at time 0 then a hit at time 10 issue one
upstream request in total; a fetch finding only a TTL-old entry re-hits. -/
theorem cache_ttl_property_witness :
    ((Engine.fetchCached [] (fun _ => "data") 0 "k").2.2
      + (Engine.fetchCached (Engine.fetchCached [] (fun _ => "data") 0 "k").2.1
          (fun _ => "data") 10 "k").2.2 ≤ 1)
    ∧ (Engine.fetchCached [("k", ⟨"old", 0⟩)] (fun _ => "data")
        Engine.TTL "k").2.2 = 1 :=
  ⟨(Engine.cache_ttl_property [] (fun _ => "data") "k" 0 10
      (by decide) (by decide)).1,
   (Engine.cache_ttl_property [("k", ⟨"old", 0⟩)] (fun _ => "data") "k"
      Engine.TTL Engine.TTL (by decide) (by decide)).2
      ⟨"old", 0⟩ (by decide) (by decide)⟩

/-- C7: a successful `resolveTimeline(seasonId)` returns the seasons ordered
earliest first: the last element is the record fetched for `seasonId`,
consecutive records are linked through resolvable prior-season links, and
the first record's prior link is absent or resolves to `NotFound` (which
ends the walk cleanly rather than erroring). -/
theorem resolveTimeline_spec (env : String → Engine.FetchResult Engine.SeasonRecord)
    (seasonId : String) (tl : List Engine.SeasonRecord)
    (h : Engine.resolveTimeline env seasonId = .ok tl) :
    (∃ sr, env seasonId = .payload sr ∧ tl.getLast? = some sr)
    ∧ List.Chain' (Engine.linkedTo env) tl
    ∧ ∀ hd, tl.head? = some hd → Engine.earliestSeason env hd :=
  Engine.resolveTimelineAux_structure env Engine.recursionCap seasonId tl h

/-- C8: on a season-link chain that stays resolvable for at least
`recursionCap` steps — a malformed cyclic link being the typical case —
`resolveTimeline` returns the `RecursionLimitExceeded` failure instead of
looping or silently truncating. -/
theorem resolveTimeline_cycle_guard
    (env : String → Engine.FetchResult Engine.SeasonRecord)
    (ids : Nat → String) (records : Nat → Engine.SeasonRecord)
    (hchain : ∀ n < Engine.recursionCap,
      env (ids n) = .payload (records n)
      ∧ (records n).previous_league_id = some (ids (n + 1))) :
    Engine.resolveTimeline env (ids 0) = .error .recursionLimitExceeded :=
  Engine.resolveTimelineAux_cycle env ids records hchain
    Engine.recursionCap 0 (by omega)

/-- Concrete instance of C8: a league whose prior-season link points to
itself trips the recursion cap. -/
theorem resolveTimeline_cycle_guard_witness :
    Engine.resolveTimeline Engine.cyclicEnv "L1"
      = .error .recursionLimitExceeded :=
  resolveTimeline_cycle_guard Engine.cyclicEnv (fun _ => "L1")
    (fun _ => Engine.cyclicRecord) (fun _ _ => ⟨rfl, rfl⟩)

/-- Concrete instance of C7, Scenario D: resolving S2 whose grandparent
link fetches `NotFound` yields S1 then S2, earliest first, without error. -/
theorem resolveTimeline_spec_witness :
    (∃ sr, Engine.envD "S2" = .payload sr
        ∧ Engine.timelineD.getLast? = some sr)
    ∧ List.Chain' (Engine.linkedTo Engine.envD) Engine.timelineD
    ∧ ∀ hd, Engine.timelineD.head? = some hd →
        Engine.earliestSeason Engine.envD hd :=
  resolveTimeline_spec Engine.envD "S2" Engine.timelineD (by rfl)

/-- C5: `buildIndex` returns the flattened transactions of all seasons (as
a permutation), consecutive entries are in ascending timestamp order, and
the result is the same multiset no matter in which order the week fetches
delivered the transactions. -/
theorem buildIndex_spec (tl tl2 : List Engine.SeasonWeeks)
    (hperm : (Engine.flattenTimeline tl).Perm (Engine.flattenTimeline tl2)) :
    (Engine.buildIndex tl).Perm (Engine.flattenTimeline tl)
    ∧ (∀ i (hi : i + 1 < (Engine.buildIndex tl).length),
        ((Engine.buildIndex tl).get ⟨i, Nat.lt_of_succ_lt hi⟩).timestamp
          ≤ ((Engine.buildIndex tl).get ⟨i + 1, hi⟩).timestamp)
    ∧ (Engine.buildIndex tl).Perm (Engine.buildIndex tl2) := by
  refine ⟨List.perm_insertionSort Engine.tsLE _, ?_, ?_⟩
  · intro i hi
    have hsorted : (Engine.buildIndex tl).Sorted Engine.tsLE :=
      List.sorted_insertionSort Engine.tsLE _
    exact hsorted.rel_get_of_lt (by exact Fin.mk_lt_mk.mpr (Nat.lt_succ_self i))
  · exact ((List.perm_insertionSort Engine.tsLE _).trans hperm).trans
      (List.perm_insertionSort Engine.tsLE _).symm

/-- Concrete instance of C5: a two-transaction timeline is indexed in
timestamp order, identically for two different week fetch outcomes. -/
theorem buildIndex_spec_witness :
    (Engine.buildIndex Engine.timelineW).Perm
      (Engine.flattenTimeline Engine.timelineW)
    ∧ (∀ i (hi : i + 1 < (Engine.buildIndex Engine.timelineW).length),
        ((Engine.buildIndex Engine.timelineW).get
            ⟨i, Nat.lt_of_succ_lt hi⟩).timestamp
          ≤ ((Engine.buildIndex Engine.timelineW).get ⟨i + 1, hi⟩).timestamp)
    ∧ (Engine.buildIndex Engine.timelineW).Perm
      (Engine.buildIndex Engine.timelineW2) :=
  buildIndex_spec Engine.timelineW Engine.timelineW2 (by decide)

/-- C1: when no trade in the Transaction Index touches the asset,
`resolveChain` still succeeds and returns a Comprehensive Asset Chain with
no top-level branches. -/
theorem resolveChain_no_trade_history (idx : List Engine.Transaction)
    (p2p : String → Option String) (rosterId : Nat) (assetId : String)
    (hnt : ∀ tx ∈ idx, tx.type = Engine.TxType.trade →
      ¬ Engine.touches assetId tx) :
    Engine.resolveChain idx p2p rosterId assetId
      = some ⟨assetId, rosterId,
          Engine.classifyAcquisition
            (Engine.firstAcquisitionTx idx rosterId assetId), []⟩ := by
  have hfilter : idx.filter (fun tx =>
      Engine.isTradeAway assetId rosterId tx
        && Engine.afterBound (Engine.acquisitionBound
            (Engine.firstAcquisitionTx idx rosterId assetId)) tx) = [] := by
    rw [List.filter_eq_nil_iff]
    intro tx hmem hcontra
    simp only [Bool.and_eq_true] at hcontra
    have htrade := hcontra.1
    simp only [Engine.isTradeAway, Bool.and_eq_true, beq_iff_eq,
      decide_eq_true_eq] at htrade
    exact hnt tx hmem htrade.1 (Or.inr ⟨(assetId, rosterId), htrade.2, rfl⟩)
  have hfind : Engine.findTradeAway idx assetId rosterId
      (Engine.acquisitionBound
        (Engine.firstAcquisitionTx idx rosterId assetId)) = none := by
    unfold Engine.findTradeAway
    rw [hfilter]
    rfl
  simp [Engine.resolveChain, Engine.buildBranch, hfind]

/-- Concrete instance of C1: an index holding only a waiver claim of an
unrelated player yields a chain with zero branches for asset P. -/
theorem resolveChain_no_trade_history_witness :
    Engine.resolveChain Engine.idxW (fun _ => none) 1 "P"
      = some ⟨"P", 1,
          Engine.classifyAcquisition
            (Engine.firstAcquisitionTx Engine.idxW 1 "P"), []⟩ :=
  resolveChain_no_trade_history Engine.idxW (fun _ => none) 1 "P" (by decide)

/-- C2: `buildBranch` always terminates on a finite Transaction Index —
fuel one larger than the index size always suffices, and more precisely
any fuel exceeding the number of transactions after the acquisition bound
does, since each recursive step strictly advances in transaction time. -/
theorem buildBranch_terminates (idx : List Engine.Transaction)
    (p2p : String → Option String) (asset : String) (holder : Nat)
    (after : Option Nat) (acq : Engine.Acquisition) :
    (Engine.buildBranch idx p2p (idx.length + 1) asset holder
        after acq).isSome = true
    ∧ ∀ fuel, Engine.countAfter idx after < fuel →
        (Engine.buildBranch idx p2p fuel asset holder after acq).isSome
          = true := by
  constructor
  · exact Engine.buildBranch_isSome idx p2p _ asset holder after acq
      (Nat.lt_succ_of_le (Engine.countAfter_le_length idx after))
  · intro fuel
    exact Engine.buildBranch_isSome idx p2p fuel asset holder after acq

/-- Concrete instance of C2: recursion on the Scenario B index terminates
with fuel `length + 1` and with any fuel dominating `countAfter`. -/
theorem buildBranch_terminates_witness :
    (Engine.buildBranch Engine.idxB (fun _ => none)
        (Engine.idxB.length + 1) "P" 1 none .drafted).isSome = true
    ∧ (Engine.buildBranch Engine.idxB (fun _ => none) 2 "P" 1 none
        .drafted).isSome = true :=
  ⟨(buildBranch_terminates Engine.idxB (fun _ => none) "P" 1 none
      .drafted).1,
   (buildBranch_terminates Engine.idxB (fun _ => none) "P" 1 none
      .drafted).2 2 (by decide)⟩

/-- C3: in every branch of a resolved Comprehensive Asset Chain, the
multiset of assets of the received package equals exactly the additions the
originating Transaction records for the branch's holder — everything the
holder got back, nothing else. -/
theorem resolveChain_package_exact (idx : List Engine.Transaction)
    (p2p : String → Option String) (rosterId : Nat) (assetId : String)
    (chain : Engine.ComprehensiveAssetChain)
    (h : Engine.resolveChain idx p2p rosterId assetId = some chain) :
    ∀ b ∈ Engine.collectChain chain,
      Multiset.ofList b.receivedPackage
        = Multiset.ofList (Engine.receivedPackage b.originatingTx b.holder) :=
  fun b hb => congrArg Multiset.ofList
    (Engine.resolveChain_collect_invariant idx p2p rosterId assetId chain
      h b hb).1

/-- Concrete instance of C3 on Scenario B: the single branch's package is
exactly what transaction tx-1 credits to roster 1. -/
theorem resolveChain_package_exact_witness :
    Multiset.ofList Engine.branchP.receivedPackage
      = Multiset.ofList
          (Engine.receivedPackage Engine.branchP.originatingTx
            Engine.branchP.holder) :=
  resolveChain_package_exact Engine.idxB (fun _ => none) 1 "P"
    Engine.chainB (by rfl) Engine.branchP
    (by simp [Engine.collectChain, Engine.chainB, Engine.branchP,
      Engine.collectBranches])

/-- C4: in every branch of a resolved Comprehensive Asset Chain, each
received asset becomes exactly one child branch or one final outcome —
sub-branch count plus final-outcome count equals the package size, so no
received asset is silently dropped and the reachable Final Outcomes count
the leaf assets. -/
theorem resolveChain_no_asset_dropped (idx : List Engine.Transaction)
    (p2p : String → Option String) (rosterId : Nat) (assetId : String)
    (chain : Engine.ComprehensiveAssetChain)
    (h : Engine.resolveChain idx p2p rosterId assetId = some chain) :
    ∀ b ∈ Engine.collectChain chain,
      b.subBranches.length + b.finalOutcomes.length
        = b.receivedPackage.length :=
  fun b hb =>
    (Engine.resolveChain_collect_invariant idx p2p rosterId assetId chain
      h b hb).2

/-- Concrete instance of C4 on Scenario B: zero sub-branches plus one final
outcome account for the single received asset Q. -/
theorem resolveChain_no_asset_dropped_witness :
    Engine.branchP.subBranches.length + Engine.branchP.finalOutcomes.length
      = Engine.branchP.receivedPackage.length :=
  resolveChain_no_asset_dropped Engine.idxB (fun _ => none) 1 "P"
    Engine.chainB (by rfl) Engine.branchP
    (by simp [Engine.collectChain, Engine.chainB, Engine.branchP,
      Engine.collectBranches])
